import Mathlib

namespace EximChat

/-!
Verification of the exim-chat ingestion/synchronization pipeline and frontend
helpers.  The repository ships the frontend TypeScript sources together with
the documentation of the Python ingestion module (the README of the module); the
Python files themselves are not part of the source tree, so the ingestion
components are modelled from the specification and from the behaviour the
in-repo documentation records, while the frontend functions (`fetchAPI`,
`renderContent`) are embedded directly from their TypeScript sources.
-/

/-! ## List utilities (shared by several embeddings) -/

/-- Boolean prefix test on character lists. -/

def isPrefixL : List Char → List Char → Bool
  | [], _ => true
  | _ :: _, [] => false
  | c :: cs, d :: ds => c == d && isPrefixL cs ds

/-- Boolean substring test on character lists (JavaScript `String.includes`). -/

def containsSub (pat : List Char) : List Char → Bool
  | [] => isPrefixL pat []
  | c :: rest => isPrefixL pat (c :: rest) || containsSub pat rest

/-! ## C1 — OneDrive sync window

Modelled from the spec: `insw/onedrive_sync.py` / `sop/onedrive_sync.py` are not
in the source tree.  The ingestion README documents `sync_documents` as
"List JSON files with metadata / Download files only if modified today",
"`sync.sync_documents()  # Get files modified today`" and, under Performance
Considerations, "OneDrive sync: Only checks files modified today"; storing a
last-sync timestamp is listed only as an unchecked future enhancement. -/

/-- Listing metadata of a remote file: display name, source-native id and
last-modified timestamp (seconds since the epoch). -/

structure FileMeta where
  name : String
  fileId : String
  lastModified : Nat
deriving DecidableEq, Repr

/-- Seconds in a calendar day. -/

def secondsPerDay : Nat := 86400

/-- Calendar day number of a timestamp. -/

def dayOf (t : Nat) : Nat := t / secondsPerDay

/-- Whether the modification timestamp of a file falls on the current calendar day. -/

def modifiedToday (now : Nat) (f : FileMeta) : Bool :=
  dayOf f.lastModified == dayOf now

/-- Modelled from the spec: the candidate selection of `sync_documents` as the
ingestion README documents it — walk the folder listing and keep exactly the
files modified today.  No last-successful-run timestamp exists in the model
because none is stored by the documented implementation. -/

def sync_documents (files : List FileMeta) (now : Nat) : List FileMeta :=
  match files with
  | [] => []
  | f :: rest =>
    if modifiedToday now f then f :: sync_documents rest now
    else sync_documents rest now

/-- The sync window claim C1 describes: "modified since the previous successful
run" when a prior run is recorded, falling back to "modified today" otherwise. -/

def claimWindow (lastRun : Option Nat) (now : Nat) (f : FileMeta) : Bool :=
  match lastRun with
  | some t => decide (t < f.lastModified)
  | none => modifiedToday now f

/-- Claim C1 as stated: for every recorded last-run state, the files selected
are exactly those inside the claimed sync window. -/

def C1claimProp : Prop :=
  ∀ (files : List FileMeta) (lastRun : Option Nat) (now : Nat),
    sync_documents files now = files.filter (claimWindow lastRun now)

/-! ## C2 — Vector store, per-class collections, id derivation

Modelled from the spec: `qdrant_store.py` and the per-class pipelines are not
in the source tree.  The repository README maps each pipeline to its own
Qdrant collection (SOP → `sop_documents`, INSW → `insw_regulations`), and the
ingestion README section "Document Structures" fixes the vector ids: the
INSW vector id is the HS code, the SOP vector id is the filename with the
`.pdf` extension stripped. -/

/-- A stored vector point: id, embedding vector, payload. -/

structure QdrantPoint where
  id : String
  vec : List Int
  payload : String
deriving DecidableEq, Repr

/-- A multi-collection vector store: points keyed by (collection name, id). -/

abbrev Qdrant := List (String × QdrantPoint)

/-- Upsert by unique id inside one collection: replace the matching point,
otherwise append. -/

def qUpsert (db : Qdrant) (coll : String) (p : QdrantPoint) : Qdrant :=
  match db with
  | [] => [(coll, p)]
  | (c, q) :: rest =>
    if c = coll ∧ q.id = p.id then (coll, p) :: rest
    else (c, q) :: qUpsert rest coll p

/-- Fetch a point by (collection, id). -/

def qGet (db : Qdrant) (coll id : String) : Option QdrantPoint :=
  match db with
  | [] => none
  | (c, q) :: rest => if c = coll ∧ q.id = id then some q else qGet rest coll id

/-- The collection of the SOP pipeline (README pipeline table). -/

def sopCollection : String := "sop_documents"

/-- The collection of the INSW pipeline (README pipeline table). -/

def inswCollection : String := "insw_regulations"

/-- Remove a trailing suffix from a character list if present. -/

def stripSuffix (suf s : List Char) : List Char :=
  if isPrefixL suf.reverse s.reverse then (s.reverse.drop suf.length).reverse else s

/-- SOP vector id: document id = filename without the `.pdf` extension. -/

def sopVectorId (filename : String) : String :=
  String.mk (stripSuffix ".pdf".data filename.data)

/-- INSW vector id: the HS code itself. -/

def inswVectorId (hs_code : String) : String := hs_code

/-- Index one SOP document: upsert into the SOP collection under its vector id. -/

def indexSopDoc (db : Qdrant) (filename : String) (vec : List Int) (payload : String) : Qdrant :=
  qUpsert db sopCollection ⟨sopVectorId filename, vec, payload⟩

/-- Index one INSW document: upsert into the INSW collection under its vector id. -/

def indexInswDoc (db : Qdrant) (hs_code : String) (vec : List Int) (payload : String) : Qdrant :=
  qUpsert db inswCollection ⟨inswVectorId hs_code, vec, payload⟩

/-- Claim C2 as stated: indexing an SOP document and an INSW document whose
raw domain keys coincide produces two stored points with distinct vector ids. -/

def C2claimProp : Prop :=
  ∀ (db : Qdrant) (fn hs : String) (v1 v2 : List Int) (p1 p2 : String)
    (e1 e2 : QdrantPoint),
    sopVectorId fn = inswVectorId hs →
    qGet (indexInswDoc (indexSopDoc db fn v1 p1) hs v2 p2)
      sopCollection (sopVectorId fn) = some e1 →
    qGet (indexInswDoc (indexSopDoc db fn v1 p1) hs v2 p2)
      inswCollection (inswVectorId hs) = some e2 →
    e1.id ≠ e2.id

/-! ## C7 — Vectorizer

Modelled from the spec: `vectorizer.py` is not in the source tree.  The
components section documents individual, batch and query vectorization with
"Batch processing with configurable batch size"; per the spec, batching is a
pure throughput optimisation and single-document and query embedding share one
deterministic transformation. -/

/-- Modelled from the spec: the deterministic embedding transformation.  The
model maps text to a numeric vector as a pure function of the text (the claims
under verification concern determinism, ordering and batching, not the
numeric values of the external model). -/

def embed (text : String) : List Int :=
  text.data.map (fun c => (c.toNat : Int))

/-- One chunked pass of batch embedding: take `n` texts at a time, embed the
chunk, continue with the rest; `fuel` bounds the recursion. -/

def embedChunks (n : Nat) : Nat → List String → List (List Int)
  | 0, ts => ts.map embed
  | fuel + 1, ts =>
    if ts.isEmpty then []
    else (ts.take n).map embed ++ embedChunks n fuel (ts.drop n)

/-- Modelled from the spec: batch vectorization with configurable batch size
`n` — texts are embedded in chunks of `n` and the per-chunk results are
concatenated in input order. -/

def embedBatch (n : Nat) (texts : List String) : List (List Int) :=
  embedChunks n texts.length texts

/-! ## C8 — OCR request/response interface

Modelled from the spec: the OCR client of the SOP text extractor is not in the
source tree; the request and response shapes follow the ingestion README
section "OCR Endpoint Specification" (multipart `POST /ocr`, `X-API-Key`
header, required binary `file`, optional parameters with documented defaults,
JSON response with `text` and `metadata`).  The default `min_confidence`
0.5 is represented exactly by the rational 1/2. -/

inductive HttpMethod where
  | get
  | post
deriving DecidableEq, Repr

/-- An OCR request as issued by the text extractor. -/

structure OcrRequest where
  method : HttpMethod
  path : String
  contentKind : String
  apiKeyHeaderName : String
  apiKey : String
  file : List Nat
  lang : String
  page_range : String
  dpi : Nat
  min_confidence : ℚ
  detect_headings : Bool
  force_ocr : Bool
deriving Repr

/-- Metadata block of the OCR response JSON. -/

structure OcrMetadata where
  page_count : Int
  confidence : ℚ
  language : String
deriving DecidableEq, Repr

/-- The OCR response JSON: a `text` field plus `metadata`. -/

structure OcrResponse where
  text : String
  metadata : OcrMetadata
deriving DecidableEq, Repr

/-- The extracted-text value the pipeline derives from an OCR response. -/

structure ExtractedText where
  text : String
  page_count : Int
  confidence : ℚ
  language : String
deriving DecidableEq, Repr

/-- Modelled from the spec: the request builder of the OCR client, filling
every optional parameter with its documented default. -/

def mkOcrRequest (fileBytes : List Nat) (key : String) : OcrRequest :=
  { method := HttpMethod.post
    path := "/ocr"
    contentKind := "multipart/form-data"
    apiKeyHeaderName := "X-API-Key"
    apiKey := key
    file := fileBytes
    lang := "en"
    page_range := "all"
    dpi := 300
    min_confidence := 1 / 2
    detect_headings := true
    force_ocr := true }

/-- Modelled from the spec: reading an OCR response into the
extracted-text value, field for field. -/

def parseOcrResponse (r : OcrResponse) : ExtractedText :=
  { text := r.text
    page_count := r.metadata.page_count
    confidence := r.metadata.confidence
    language := r.metadata.language }

/-! ## Pipeline orchestrator — C3 (dry-run purity), C4 (idempotence), C6 (failure isolation)

Modelled from the spec: `insw/ingestion_pipeline.py` / `sop/ingestion_pipeline.py`
are not in the source tree.  The orchestrator follows the documented
`sync_and_upsert(dry_run)` contract: fetch candidates, extract text (failures
are per-document), fingerprint exactly the embedded content, diff against the
stored fingerprint, skip unchanged documents, upsert the rest unless
`dry_run`, and summarise counts and outcomes; the overall status is
partial-failure exactly when some document failed. -/

/-- Modelled from the spec: the content fingerprint, a hash of exactly the
fields that are embedded (never of volatile metadata). -/

def fingerprint (content : String) : Nat :=
  content.data.foldl (fun h c => (h * 31 + c.toNat) % 1000000007) 7

/-- One entry of a per-class vector index: vector id, stored fingerprint,
embedding vector and payload. -/

structure Entry where
  id : String
  fp : Nat
  vec : List Int
  payload : String
deriving DecidableEq, Repr

/-- `exists(id)`: the stored fingerprint for an id, if any. -/

def existsFp (store : List Entry) (id : String) : Option Nat :=
  match store with
  | [] => none
  | e :: rest => if e.id = id then some e.fp else existsFp rest id

/-- Idempotent upsert-by-id: overwrite in place, append when absent. -/

def upsert (store : List Entry) (e : Entry) : List Entry :=
  match store with
  | [] => [e]
  | x :: rest => if x.id = e.id then e :: rest else x :: upsert rest e

/-- A fetched candidate document: domain key, embedded-relevant content,
payload metadata, and whether text extraction succeeds for it. -/

structure Doc where
  key : String
  content : String
  payload : String
  extractOk : Bool
deriving DecidableEq, Repr

/-- Terminal status of a pipeline run. -/

inductive RunStatus where
  | success
  | partialFailure
  | aborted
deriving DecidableEq, Repr

/-- The run summary: fetched count and per-outcome key lists.  In a dry run
`upserted` is the would-upsert set. -/

structure RunSummary where
  fetched : Nat
  upserted : List String
  skipped : List String
  failed : List String
  status : RunStatus
deriving DecidableEq, Repr

/-- The entry an upsert writes for a document. -/

def mkEntry (d : Doc) : Entry :=
  ⟨d.key, fingerprint d.content, embed d.content, d.payload⟩

/-- Whether the stored fingerprint for a document equals the freshly computed
one (the skipped-unchanged test). -/

def unchangedB (store : List Entry) (d : Doc) : Bool :=
  match existsFp store d.key with
  | some fp0 => fp0 == fingerprint d.content
  | none => false

/-- Process one candidate: record an extraction failure, skip an unchanged
document, otherwise record it as (would-)upserted — writing the store only
when not a dry run. -/

def processDoc (dry_run : Bool) (acc : RunSummary × List Entry) (d : Doc) :
    RunSummary × List Entry :=
  if d.extractOk then
    if unchangedB acc.2 d then
      ({ acc.1 with skipped := acc.1.skipped ++ [d.key] }, acc.2)
    else
      ({ acc.1 with upserted := acc.1.upserted ++ [d.key] },
       if dry_run then acc.2 else upsert acc.2 (mkEntry d))
  else
    ({ acc.1 with failed := acc.1.failed ++ [d.key] }, acc.2)

/-- Modelled from the spec: `sync_and_upsert(dry_run)` — fold the candidates
through `processDoc` starting from an empty summary, then finalise the status:
partial-failure iff some document failed, success otherwise. -/

def sync_and_upsert (dry_run : Bool) (docs : List Doc) (store : List Entry) :
    RunSummary × List Entry :=
  let r := docs.foldl (processDoc dry_run)
    ({ fetched := docs.length, upserted := [], skipped := [], failed := [],
       status := RunStatus.success }, store)
  ({ r.1 with status :=
      if r.1.failed.isEmpty then RunStatus.success else RunStatus.partialFailure },
   r.2)

/-! ## C5 — Run scheduler, skip-if-running

Modelled from the spec: `modules/scheduler.py` is not in the source tree.  The
repository README documents the behaviour: "Each pipeline has a lock to
prevent overlapping runs.  If a pipeline is still running from a previous
schedule, the new run is skipped"; manual triggers go through the admin API
and take the same path.  The model is a transition system over the scheduler
state: which classes are `Running`, a (never used) deferred-run queue, and a
counter of remote calls started. -/

/-- Outcome of a manual trigger. -/

inductive RunOutcome where
  | started
  | locked
deriving DecidableEq, Repr

/-- Scheduler state: classes currently running, deferred-run queue (the
skip-if-running policy never enqueues), and how many runs began remote work. -/

structure SchedState where
  running : List String
  queued : List String
  remoteCalls : Nat
deriving DecidableEq, Repr

/-- Scheduler events: a trigger (scheduled or manual) for a class, or the end
of the run of a class. -/

inductive Event where
  | trigger (c : String)
  | finish (c : String)
deriving DecidableEq, Repr

/-- One scheduler transition.  A trigger for a class already running returns
`locked` and changes nothing (no remote call, nothing queued); otherwise the
run starts.  A finish releases the lock of the class. -/

def step (st : SchedState) (e : Event) : SchedState × Option RunOutcome :=
  match e with
  | Event.trigger c =>
    if c ∈ st.running then (st, some RunOutcome.locked)
    else ({ st with running := c :: st.running, remoteCalls := st.remoteCalls + 1 },
          some RunOutcome.started)
  | Event.finish c => ({ st with running := st.running.erase c }, none)

/-- The state component of a transition. -/

def stepState (st : SchedState) (e : Event) : SchedState := (step st e).1

/-- The idle initial scheduler state. -/

def initState : SchedState := ⟨[], [], 0⟩

/-- The scheduler state reached after a sequence of events. -/

def runSched (events : List Event) : SchedState :=
  events.foldl stepState initState

/-! ## C9 — `fetchAPI` (frontend/utils/api.ts)

Embedded from the TypeScript source.  The browser-visible state is the
`localStorage` entries `token` and `user`, the current `location.pathname`,
and `location.href`; `fetchAPI` receives the response status of the backend and,
on 401, clears both entries and navigates to `/login` unless the pathname
already contains `/login`; it returns the original response in every
non-throwing case. -/

/-- JavaScript `String.prototype.includes`. -/

def jsIncludes (s pat : String) : Bool := containsSub pat.data s.data

/-- The browser state `fetchAPI` can read and write. -/

structure BrowserState where
  token : Option String
  user : Option String
  pathname : String
  href : String
deriving DecidableEq, Repr

/-- What a `fetchAPI` call leaves behind: the browser state after the call and
the status of the response object it returns. -/

structure FetchOutcome where
  finalState : BrowserState
  returnedStatus : Nat
deriving DecidableEq, Repr

/-- `fetchAPI`, given the browser state and the status of the response the
backend produced: on 401 remove `token` and `user` from localStorage and,
unless the pathname already contains `/login`, set `location.href` to
`/login`; always return the original response. -/

def fetchAPI (st : BrowserState) (status : Nat) : FetchOutcome :=
  if status == 401 then
    let st1 : BrowserState := { st with token := none, user := none }
    let st2 : BrowserState :=
      if jsIncludes st1.pathname "/login" then st1
      else { st1 with href := "/login" }
    ⟨st2, status⟩
  else
    ⟨st, status⟩

/-! ## C10 — `renderContent` (chat interface)

Embedded from the TypeScript source: `renderContent` splits the message on
the string `<CASE_DATA>`; `parts[0]` is rendered as markdown, `parts[1]` — the
segment between the first and second markers — is `JSON.parse`d inside a
try/catch, and the Related Cases table is rendered when the parsed value is
truthy and `Array.isArray` holds.  `JSON.parse` is modelled by a fuel-bounded
recursive-descent parser of the JSON grammar (whole-input, whitespace
tolerant, rejecting trailing garbage, as `JSON.parse` does). -/

/-- A JSON value; numbers keep their source characters. -/

inductive Json where
  | jnull
  | jbool (b : Bool)
  | jnum (raw : List Char)
  | jstr (s : List Char)
  | jarr (elems : List Json)
  | jobj (fields : List (List Char × Json))

/-- JSON insignificant whitespace, by code point: space, tab, line feed,
carriage return. -/

def isJsonWs (c : Char) : Bool :=
  c.toNat == 32 || c.toNat == 9 || c.toNat == 10 || c.toNat == 13

/-- Drop leading JSON whitespace. -/

def skipWs : List Char → List Char
  | c :: rest => if isJsonWs c then skipWs rest else c :: rest
  | [] => []

/-- Value of a hexadecimal digit, by code point ranges. -/

def hexVal (c : Char) : Option Nat :=
  let n := c.toNat
  if 48 ≤ n ∧ n ≤ 57 then some (n - 48)
  else if 97 ≤ n ∧ n ≤ 102 then some (n - 87)
  else if 65 ≤ n ∧ n ≤ 70 then some (n - 55)
  else none

/-- The single-character JSON string escapes: quote, backslash and solidus
stand for themselves; b, f, n, r, t stand for their control characters. -/

def unescapeChar (c : Char) : Option Char :=
  match c with
  | '"' => some c
  | '\\' => some c
  | '/' => some c
  | 'b' => some (Char.ofNat 8)
  | 'f' => some (Char.ofNat 12)
  | 'n' => some (Char.ofNat 10)
  | 'r' => some (Char.ofNat 13)
  | 't' => some (Char.ofNat 9)
  | _ => none

/-- Parse the body of a JSON string after the opening quote, returning the
decoded characters and the remainder after the closing quote. -/

def parseStringBody : Nat → List Char → Option (List Char × List Char)
  | 0, _ => none
  | _ + 1, [] => none
  | fuel + 1, c :: rest =>
    if c == '"' then some ([], rest)
    else if c == '\\' then
      match rest with
      | [] => none
      | e :: rest2 =>
        if e == 'u' then
          match rest2 with
          | h1 :: h2 :: h3 :: h4 :: rest3 =>
            match hexVal h1, hexVal h2, hexVal h3, hexVal h4 with
            | some a, some b, some c2, some d =>
              match parseStringBody fuel rest3 with
              | some (t, r) =>
                some (Char.ofNat (((a * 16 + b) * 16 + c2) * 16 + d) :: t, r)
              | none => none
            | _, _, _, _ => none
          | _ => none
        else
          match unescapeChar e with
          | some c2 =>
            match parseStringBody fuel rest2 with
            | some (t, r) => some (c2 :: t, r)
            | none => none
          | none => none
    else if c.toNat < 32 then none
    else
      match parseStringBody fuel rest with
      | some (t, r) => some (c :: t, r)
      | none => none

/-- Split off a maximal run of decimal digits. -/

def digitSpan : List Char → List Char × List Char
  | [] => ([], [])
  | c :: rest =>
    if c.isDigit then
      let (ds, r) := digitSpan rest
      (c :: ds, r)
    else ([], c :: rest)

/-- Parse the exponent tail of a JSON number after the `e`/`E`. -/

def expTail (pre eChar : List Char) (r : List Char) : Option (Json × List Char) :=
  let (sg, r1) :=
    match r with
    | '+' :: t => ((['+'] : List Char), t)
    | '-' :: t => ((['-'] : List Char), t)
    | _ => (([] : List Char), r)
  let (es, r2) := digitSpan r1
  if es.isEmpty then none else some (Json.jnum (pre ++ eChar ++ sg ++ es), r2)

/-- Parse an optional exponent after the integer/fraction part. -/

def finishExp (pre : List Char) (s : List Char) : Option (Json × List Char) :=
  match s with
  | 'e' :: r => expTail pre ['e'] r
  | 'E' :: r => expTail pre ['E'] r
  | _ => some (Json.jnum pre, s)

/-- Parse a JSON number (sign, integer part without leading zeros, optional
fraction, optional exponent). -/

def parseNum (s : List Char) : Option (Json × List Char) :=
  let (sign, s1) :=
    match s with
    | '-' :: r => ((['-'] : List Char), r)
    | _ => (([] : List Char), s)
  let (ds, s2) := digitSpan s1
  if ds.isEmpty then none
  else if ds.length > 1 && ds.headD '0' == '0' then none
  else
    match s2 with
    | '.' :: r =>
      let (fs, s3) := digitSpan r
      if fs.isEmpty then none
      else finishExp (sign ++ ds ++ '.' :: fs) s3
    | _ => finishExp (sign ++ ds) s2

/-- Expect a fixed literal continuation, yielding a constant value. -/

def expectLit (lit : List Char) (v : Json) (s : List Char) : Option (Json × List Char) :=
  if isPrefixL lit s then some (v, s.drop lit.length) else none

/-- Parse the comma-separated elements of a non-empty JSON array, including
the closing bracket; `pv` parses one value. -/

def parseElems (pv : List Char → Option (Json × List Char)) :
    Nat → List Char → Option (List Json × List Char)
  | 0, _ => none
  | fuel + 1, s =>
    match pv s with
    | none => none
    | some (v, r) =>
      match skipWs r with
      | ',' :: r2 =>
        match parseElems pv fuel r2 with
        | some (vs, r3) => some (v :: vs, r3)
        | none => none
      | ']' :: r2 => some ([v], r2)
      | _ => none

/-- Parse the members of a non-empty JSON object, including the closing
brace; `pv` parses one value. -/

def parseFields (pv : List Char → Option (Json × List Char)) :
    Nat → List Char → Option (List (List Char × Json) × List Char)
  | 0, _ => none
  | fuel + 1, s =>
    match skipWs s with
    | '"' :: r =>
      match parseStringBody (r.length + 1) r with
      | some (k, r1) =>
        match skipWs r1 with
        | ':' :: r2 =>
          match pv r2 with
          | some (v, r3) =>
            match skipWs r3 with
            | ',' :: r4 =>
              match parseFields pv fuel r4 with
              | some (fs, r5) => some ((k, v) :: fs, r5)
              | none => none
            | '}' :: r4 => some ([(k, v)], r4)
            | _ => none
          | none => none
        | _ => none
      | none => none
    | _ => none

/-- Fuel-bounded recursive-descent parser for one JSON value, returning the
value and the unconsumed remainder. -/

def parseVal : Nat → List Char → Option (Json × List Char)
  | 0, _ => none
  | fuel + 1, s0 =>
    match skipWs s0 with
    | [] => none
    | c :: rest =>
      if c == 'n' then expectLit ['u', 'l', 'l'] Json.jnull rest
      else if c == 't' then expectLit ['r', 'u', 'e'] (Json.jbool true) rest
      else if c == 'f' then expectLit ['a', 'l', 's', 'e'] (Json.jbool false) rest
      else if c == '"' then
        match parseStringBody (rest.length + 1) rest with
        | some (str, r) => some (Json.jstr str, r)
        | none => none
      else if c == '[' then
        match skipWs rest with
        | ']' :: r2 => some (Json.jarr [], r2)
        | r1 =>
          match parseElems (parseVal fuel) fuel r1 with
          | some (els, r2) => some (Json.jarr els, r2)
          | none => none
      else if c == '{' then
        match skipWs rest with
        | '}' :: r2 => some (Json.jobj [], r2)
        | r1 =>
          match parseFields (parseVal fuel) fuel r1 with
          | some (fs, r2) => some (Json.jobj fs, r2)
          | none => none
      else parseNum (c :: rest)

/-- `JSON.parse` on a character list: parse one value and insist the rest is
whitespace, otherwise fail (trailing garbage throws). -/

def parseJsonL (s : List Char) : Option Json :=
  match parseVal (2 * s.length + 2) s with
  | some (v, r) => if (skipWs r).isEmpty then some v else none
  | none => none

/-- Whether a JSON number literal denotes zero (all mantissa digits `0`). -/

def numIsZero (raw : List Char) : Bool :=
  raw.all (fun c => !(c.isDigit && !(c == '0')))

/-- JavaScript truthiness of a parsed JSON value. -/

def jsTruthy : Json → Bool
  | Json.jnull => false
  | Json.jbool b => b
  | Json.jnum raw => !(numIsZero raw)
  | Json.jstr s => !s.isEmpty
  | Json.jarr _ => true
  | Json.jobj _ => true

/-- `Array.isArray` on a parsed JSON value. -/

def isArr : Json → Bool
  | Json.jarr _ => true
  | _ => false

/-- The element list of a JSON array value. -/

def getArr : Json → List Json
  | Json.jarr xs => xs
  | _ => []

/-- Split a character list on every occurrence of a separator (JavaScript
`String.split` with a string separator); `fuel` bounds the scan. -/

def splitGo (sep : List Char) : Nat → List Char → List Char → List (List Char)
  | 0, s, acc => [acc.reverse ++ s]
  | fuel + 1, s, acc =>
    match s with
    | [] => [acc.reverse]
    | c :: rest =>
      if isPrefixL sep s then acc.reverse :: splitGo sep fuel (s.drop sep.length) []
      else splitGo sep fuel rest (c :: acc)

/-- JavaScript `content.split(sep)` for a non-empty separator. -/

def splitOnL (sep s : List Char) : List (List Char) :=
  if sep.isEmpty then [s] else splitGo sep (s.length + 1) s []

/-- The marker the chat interface splits assistant messages on. -/

def caseMarker : List Char := "<CASE_DATA>".data

/-- What `renderContent` produces: the markdown text part and, when rendered,
the rows of the Related Cases table. -/

structure RenderResult where
  textPart : List Char
  caseTable : Option (List Json)

/-- `renderContent`: split on `<CASE_DATA>`; render `parts[0]` as markdown;
`JSON.parse(parts[1])` inside a try/catch when `parts[1]` is truthy
(non-empty); render the Related Cases table when the parsed value is truthy
and an array. -/

def renderContent (content : List Char) : RenderResult :=
  let parts := splitOnL caseMarker content
  let textPart := parts.headD []
  let caseData : Option Json :=
    match parts[1]? with
    | some s => if s.isEmpty then none else parseJsonL s
    | none => none
  let table : Option (List Json) :=
    match caseData with
    | some v => if jsTruthy v && isArr v then some (getArr v) else none
    | none => none
  ⟨textPart, table⟩

/-- `renderContent` on a message string. -/

def renderContentS (content : String) : RenderResult := renderContent content.data

/-- The remainder of a character list after the first occurrence of a
separator, if the separator occurs; `fuel` bounds the scan. -/

def afterAux (sep : List Char) : Nat → List Char → Option (List Char)
  | 0, _ => none
  | fuel + 1, s =>
    if isPrefixL sep s then some (s.drop sep.length)
    else
      match s with
      | [] => none
      | _ :: rest => afterAux sep fuel rest

/-- Everything after the first `<CASE_DATA>` marker of a message. -/

def textAfterFirstMarker (content : List Char) : Option (List Char) :=
  afterAux caseMarker (content.length + 1) content

/-- Whether a character list parses as a JSON array. -/

def parsesAsJsonArray (s : List Char) : Bool :=
  match parseJsonL s with
  | some v => isArr v
  | none => false

/-- Claim C10 as stated: the Related Cases table is rendered exactly when the
text after the first `<CASE_DATA>` marker parses as a JSON array. -/

def C10claimProp : Prop :=
  ∀ content : String,
    (renderContentS content).caseTable.isSome =
      (match textAfterFirstMarker content.data with
       | some s => parsesAsJsonArray s
       | none => false)

/-! ## Theorems -/

/-- C1 (counterexample): the claim is false.  With a previous successful run
recorded at t = 86000 (day 0, 23:53:20) and the clock at t = 86400 (day 1,
00:00:00), a file modified at t = 86200 — after the previous run but on the
previous calendar day — falls inside the claimed window yet is not selected:
the documented selection keeps only files modified today. -/

theorem C1_counterexample : ¬ C1claimProp := by
  intro h
  exact absurd (h [⟨"a.json", "id1", 86200⟩] (some 86000) 86400) (by decide)

/-- Helper: the recursive selection equals a filter by `modifiedToday`. -/

theorem sync_documents_eq_filter (files : List FileMeta) (now : Nat) :
    sync_documents files now = files.filter (modifiedToday now) := by
  induction files with
  | nil => rfl
  | cons f rest ih =>
    by_cases hf : modifiedToday now f
    · simp [sync_documents, hf, List.filter_cons, ih]
    · simp [sync_documents, hf, List.filter_cons, ih]

/-- C1 (amended): `sync_documents` selects exactly the remote files whose
modification timestamp falls on the current calendar day, regardless of
whether a prior successful run is recorded; no last-run timestamp is stored. -/

theorem C1_sync_window_modified_today (files : List FileMeta) (now : Nat) (f : FileMeta) :
    f ∈ sync_documents files now ↔ f ∈ files ∧ dayOf f.lastModified = dayOf now := by
  rw [sync_documents_eq_filter]
  simp [List.mem_filter, modifiedToday]

/-- C2 (counterexample): indexing SOP file `A1.pdf` (key `A1`) and INSW code
`A1` stores two points whose id fields are both exactly `A1`; the stored
vector ids are equal, not distinct — the two points are kept apart only by
living in different collections. -/

theorem C2_counterexample : ¬ C2claimProp := by
  intro h
  exact h [] "A1.pdf" "A1" [1] [2] "sop-doc" "insw-doc"
    ⟨"A1", [1], "sop-doc"⟩ ⟨"A1", [2], "insw-doc"⟩
    (by decide) (by decide) (by decide) rfl

/-- Upserting a point makes it retrievable under its (collection, id). -/

theorem qGet_qUpsert_self (db : Qdrant) (coll : String) (p : QdrantPoint) :
    qGet (qUpsert db coll p) coll p.id = some p := by
  induction db with
  | nil => simp [qUpsert, qGet]
  | cons hd rest ih =>
    obtain ⟨c, q⟩ := hd
    by_cases hc : c = coll ∧ q.id = p.id
    · simp [qUpsert, hc, qGet]
    · simp [qUpsert, hc, qGet, ih]

/-- Upserting into one collection leaves the points of every other collection
untouched. -/

theorem qGet_qUpsert_other (db : Qdrant) (coll coll2 : String) (p : QdrantPoint)
    (id : String) (hne : coll ≠ coll2) :
    qGet (qUpsert db coll2 p) coll id = qGet db coll id := by
  induction db with
  | nil =>
    simp only [qUpsert, qGet]
    rw [if_neg]
    rintro ⟨h1, -⟩
    exact hne h1.symm
  | cons hd rest ih =>
    obtain ⟨c, q⟩ := hd
    simp only [qUpsert]
    by_cases hc : c = coll2 ∧ q.id = p.id
    · rw [if_pos hc]
      obtain ⟨hc1, hc2⟩ := hc
      subst hc1
      simp only [qGet]
      rw [if_neg (fun hh => hne hh.1.symm), if_neg (fun hh => hne hh.1.symm)]
    · rw [if_neg hc]
      simp only [qGet]
      by_cases hq : c = coll ∧ q.id = id
      · rw [if_pos hq, if_pos hq]
      · rw [if_neg hq, if_neg hq]
        exact ih

/-- C2 (amended): two documents from different classes whose raw domain keys
coincide are stored under the same raw vector id but in distinct per-class
collections, so neither upsert overwrites the other and both remain
independently retrievable; no per-document key-collision failure is reported —
cross-class isolation comes from collection separation, not key namespacing. -/

theorem C2_cross_class_isolation (db : Qdrant) (fn hs : String)
    (v1 v2 : List Int) (p1 p2 : String) :
    qGet (indexInswDoc (indexSopDoc db fn v1 p1) hs v2 p2)
      sopCollection (sopVectorId fn) = some ⟨sopVectorId fn, v1, p1⟩ ∧
    qGet (indexInswDoc (indexSopDoc db fn v1 p1) hs v2 p2)
      inswCollection (inswVectorId hs) = some ⟨inswVectorId hs, v2, p2⟩ := by
  constructor
  · rw [indexInswDoc, qGet_qUpsert_other _ _ _ _ _ (by decide)]
    exact qGet_qUpsert_self _ _ _
  · exact qGet_qUpsert_self _ _ _

/-- Chunked embedding is the pointwise embedding. -/

theorem embedChunks_eq_map (n : Nat) :
    ∀ (fuel : Nat) (ts : List String), embedChunks n fuel ts = ts.map embed := by
  intro fuel
  induction fuel with
  | zero => intro ts; rfl
  | succ fuel ih =>
    intro ts
    cases ts with
    | nil => rfl
    | cons t rest =>
      simp only [embedChunks, List.isEmpty_cons, if_neg]
      rw [ih]
      rw [← List.map_append, List.take_append_drop]
      simp

/-- C7: `embedBatch` returns exactly one vector per input text, in input
order, and the i-th returned vector equals `embed` of the i-th input —
batching never alters the output for a given input, for every batch size. -/

theorem C7_embedBatch_pointwise (n : Nat) (texts : List String) :
    (embedBatch n texts).length = texts.length ∧
    ∀ i : Nat, (embedBatch n texts)[i]? = (texts[i]?).map embed := by
  have h : embedBatch n texts = texts.map embed := embedChunks_eq_map n texts.length texts
  constructor
  · rw [h, List.length_map]
  · intro i
    rw [h, List.getElem?_map]

/-- C8: every OCR request issued is a multipart POST to /ocr authenticated by
the X-API-Key header, carries the binary file and the parameters lang,
page_range, dpi, min_confidence, detect_headings and force_ocr with defaults
"en", "all", 300, 1/2, true, true; and the response consumed is a JSON object
whose `text` and `metadata.page_count` / `metadata.confidence` /
`metadata.language` fields feed the extracted text verbatim. -/

theorem C8_ocr_interface (fileBytes : List Nat) (key : String) (r : OcrResponse) :
    (mkOcrRequest fileBytes key).method = HttpMethod.post ∧
    (mkOcrRequest fileBytes key).path = "/ocr" ∧
    (mkOcrRequest fileBytes key).contentKind = "multipart/form-data" ∧
    (mkOcrRequest fileBytes key).apiKeyHeaderName = "X-API-Key" ∧
    (mkOcrRequest fileBytes key).apiKey = key ∧
    (mkOcrRequest fileBytes key).file = fileBytes ∧
    (mkOcrRequest fileBytes key).lang = "en" ∧
    (mkOcrRequest fileBytes key).page_range = "all" ∧
    (mkOcrRequest fileBytes key).dpi = 300 ∧
    (mkOcrRequest fileBytes key).min_confidence = 1 / 2 ∧
    (mkOcrRequest fileBytes key).detect_headings = true ∧
    (mkOcrRequest fileBytes key).force_ocr = true ∧
    (parseOcrResponse r).text = r.text ∧
    (parseOcrResponse r).page_count = r.metadata.page_count ∧
    (parseOcrResponse r).confidence = r.metadata.confidence ∧
    (parseOcrResponse r).language = r.metadata.language := by
  refine ⟨rfl, rfl, rfl, rfl, rfl, rfl, rfl, rfl, rfl, rfl, rfl, rfl, rfl, rfl, rfl, rfl⟩

/-- A dry-run fold never writes the store. -/

theorem foldl_dry_store (docs : List Doc) :
    ∀ (s : RunSummary) (store : List Entry),
      (docs.foldl (processDoc true) (s, store)).2 = store := by
  induction docs with
  | nil => intro s store; rfl
  | cons d rest ih =>
    intro s store
    rw [List.foldl_cons]
    by_cases hd : d.extractOk
    · by_cases hu : unchangedB store d
      · simpa [processDoc, hd, hu] using ih _ store
      · simpa [processDoc, hd, hu] using ih _ store
    · simpa [processDoc, hd] using ih _ store

/-- The fetched count is fixed by the initial summary in every mode. -/

theorem foldl_fetched (mode : Bool) (docs : List Doc) :
    ∀ (s : RunSummary) (store : List Entry),
      (docs.foldl (processDoc mode) (s, store)).1.fetched = s.fetched := by
  induction docs with
  | nil => intro s store; rfl
  | cons d rest ih =>
    intro s store
    rw [List.foldl_cons]
    by_cases hd : d.extractOk
    · by_cases hu : unchangedB store d
      · simpa [processDoc, hd, hu] using ih _ _
      · simpa [processDoc, hd, hu] using ih _ _
    · simpa [processDoc, hd] using ih _ _

/-- In every mode, the failed list accumulates exactly the keys of documents
whose extraction fails, independent of the store. -/

theorem foldl_failed (mode : Bool) (docs : List Doc) :
    ∀ (s : RunSummary) (store : List Entry),
      (docs.foldl (processDoc mode) (s, store)).1.failed
        = s.failed ++ (docs.filter (fun d => !d.extractOk)).map Doc.key := by
  induction docs with
  | nil => intro s store; simp
  | cons d rest ih =>
    intro s store
    rw [List.foldl_cons]
    by_cases hd : d.extractOk
    · by_cases hu : unchangedB store d
      · simp [processDoc, hd, hu, ih, List.filter_cons]
      · simp [processDoc, hd, hu, ih, List.filter_cons]
    · simp [processDoc, hd, ih, List.filter_cons]

/-- A dry-run fold reports as (would-)upserted exactly the extractable
documents whose fingerprint differs from the one stored before the run. -/

theorem foldl_dry_upserted (docs : List Doc) :
    ∀ (s : RunSummary) (store : List Entry),
      (docs.foldl (processDoc true) (s, store)).1.upserted
        = s.upserted
          ++ (docs.filter (fun d => d.extractOk && !unchangedB store d)).map Doc.key := by
  induction docs with
  | nil => intro s store; simp
  | cons d rest ih =>
    intro s store
    rw [List.foldl_cons]
    by_cases hd : d.extractOk
    · by_cases hu : unchangedB store d
      · simp [processDoc, hd, hu, ih, List.filter_cons]
      · simp [processDoc, hd, hu, ih, List.filter_cons]
    · simp [processDoc, hd, ih, List.filter_cons]

/-- C3: a dry run performs no upsert — the store, hence every stored
fingerprint, is unchanged — while the `upserted` list of the summary still reports
the would-upsert set: the extractable candidates whose computed fingerprint
differs from the stored one. -/

theorem C3_dry_run_purity (docs : List Doc) (store : List Entry) :
    (sync_and_upsert true docs store).2 = store ∧
    (∀ id, existsFp (sync_and_upsert true docs store).2 id = existsFp store id) ∧
    (sync_and_upsert true docs store).1.upserted
      = (docs.filter (fun d => d.extractOk && !unchangedB store d)).map Doc.key := by
  have hstore : (sync_and_upsert true docs store).2 = store := by
    simp only [sync_and_upsert]
    exact foldl_dry_store docs _ store
  refine ⟨hstore, fun id => by rw [hstore], ?_⟩
  simp only [sync_and_upsert]
  simpa using foldl_dry_upserted docs _ store

/-- After an upsert, the written id stores the fingerprint of the entry. -/

theorem existsFp_upsert_self (store : List Entry) (e : Entry) :
    existsFp (upsert store e) e.id = some e.fp := by
  induction store with
  | nil => simp [upsert, existsFp]
  | cons x rest ih =>
    by_cases hx : x.id = e.id
    · simp [upsert, hx, existsFp]
    · simp [upsert, hx, existsFp, ih]

/-- An upsert leaves the stored fingerprint of every other id unchanged. -/

theorem existsFp_upsert_ne (store : List Entry) (e : Entry) (k : String)
    (hne : k ≠ e.id) :
    existsFp (upsert store e) k = existsFp store k := by
  have hek : ¬ e.id = k := fun h => hne h.symm
  induction store with
  | nil =>
    simp only [upsert, existsFp]
    rw [if_neg hek]
  | cons x rest ih =>
    simp only [upsert]
    by_cases hx : x.id = e.id
    · rw [if_pos hx]
      simp only [existsFp]
      rw [if_neg hek, if_neg (fun h => hek (hx.symm.trans h))]
    · rw [if_neg hx]
      simp only [existsFp]
      by_cases hk : x.id = k
      · rw [if_pos hk, if_pos hk]
      · rw [if_neg hk, if_neg hk]
        exact ih

/-- A committed fold never touches the stored fingerprint of a key that is not
among the keys of the processed documents. -/

theorem foldl_wet_untouched (docs : List Doc) :
    ∀ (s : RunSummary) (store : List Entry) (k : String),
      k ∉ docs.map Doc.key →
      existsFp (docs.foldl (processDoc false) (s, store)).2 k = existsFp store k := by
  induction docs with
  | nil => intro s store k _; rfl
  | cons d rest ih =>
    intro s store k hk
    rw [List.map_cons, List.mem_cons] at hk
    push_neg at hk
    obtain ⟨hk1, hk2⟩ := hk
    rw [List.foldl_cons]
    by_cases hd : d.extractOk
    · by_cases hu : unchangedB store d
      · simpa [processDoc, hd, hu] using ih _ store k hk2
      · rw [show processDoc false (s, store) d
              = ({ s with upserted := s.upserted ++ [d.key] }, upsert store (mkEntry d)) by
            simp [processDoc, hd, hu]]
        rw [ih _ _ k hk2]
        exact existsFp_upsert_ne store (mkEntry d) k hk1
    · simpa [processDoc, hd] using ih _ store k hk2

/-- After a committed run over documents with pairwise-distinct keys, every
successfully extracted document has its key storing exactly its content fingerprint. -/

theorem foldl_wet_exists (docs : List Doc) :
    ∀ (s : RunSummary) (store : List Entry),
      (docs.map Doc.key).Nodup →
      ∀ d ∈ docs, d.extractOk = true →
        existsFp (docs.foldl (processDoc false) (s, store)).2 d.key
          = some (fingerprint d.content) := by
  induction docs with
  | nil => intro s store _ d hd; exact absurd hd (List.not_mem_nil d)
  | cons g rest ih =>
    intro s store hnd d hd hok
    rw [List.map_cons, List.nodup_cons] at hnd
    obtain ⟨hg, hrest⟩ := hnd
    rw [List.foldl_cons]
    rcases List.mem_cons.mp hd with hdg | hdr
    · subst hdg
      by_cases hu : unchangedB store d
      · have hstep : processDoc false (s, store) d
            = ({ s with skipped := s.skipped ++ [d.key] }, store) := by
          simp [processDoc, hok, hu]
        have hfpeq : existsFp store d.key = some (fingerprint d.content) := by
          unfold unchangedB at hu
          revert hu
          cases hfp : existsFp store d.key with
          | none => intro hu; simp at hu
          | some fp0 =>
            intro hu
            simp only [beq_iff_eq] at hu
            rw [hu]
        rw [hstep, foldl_wet_untouched rest _ store d.key hg, hfpeq]
      · have hstep : processDoc false (s, store) d
            = ({ s with upserted := s.upserted ++ [d.key] },
               upsert store (mkEntry d)) := by
          simp [processDoc, hok, hu]
        rw [hstep, foldl_wet_untouched rest _ _ d.key hg]
        simpa [mkEntry] using existsFp_upsert_self store (mkEntry d)
    · by_cases hgok : g.extractOk
      · by_cases hu : unchangedB store g
        · have hstep : processDoc false (s, store) g
              = ({ s with skipped := s.skipped ++ [g.key] }, store) := by
            simp [processDoc, hgok, hu]
          rw [hstep]
          exact ih _ store hrest d hdr hok
        · have hstep : processDoc false (s, store) g
              = ({ s with upserted := s.upserted ++ [g.key] },
                 upsert store (mkEntry g)) := by
            simp [processDoc, hgok, hu]
          rw [hstep]
          exact ih _ _ hrest d hdr hok
      · have hstep : processDoc false (s, store) g
            = ({ s with failed := s.failed ++ [g.key] }, store) := by
          simp [processDoc, hgok]
        rw [hstep]
        exact ih _ store hrest d hdr hok

/-- When every extractable document is unchanged with respect to the store, a
committed fold leaves the store as is. -/

theorem foldl_stable_store (docs : List Doc) :
    ∀ (s : RunSummary) (store : List Entry),
      (∀ d ∈ docs, d.extractOk = true → unchangedB store d = true) →
      (docs.foldl (processDoc false) (s, store)).2 = store := by
  induction docs with
  | nil => intro s store _; rfl
  | cons d rest ih =>
    intro s store hall
    rw [List.foldl_cons]
    by_cases hd : d.extractOk
    · have hu : unchangedB store d := hall d (List.mem_cons_self d rest) hd
      have hstep : processDoc false (s, store) d
          = ({ s with skipped := s.skipped ++ [d.key] }, store) := by
        simp [processDoc, hd, hu]
      rw [hstep]
      exact ih _ store (fun x hx => hall x (List.mem_cons_of_mem d hx))
    · have hstep : processDoc false (s, store) d
          = ({ s with failed := s.failed ++ [d.key] }, store) := by
        simp [processDoc, hd]
      rw [hstep]
      exact ih _ store (fun x hx => hall x (List.mem_cons_of_mem d hx))

/-- When every extractable document is unchanged with respect to the store, a
committed fold upserts nothing and skips exactly the extractable documents. -/

theorem foldl_stable_summary (docs : List Doc) :
    ∀ (s : RunSummary) (store : List Entry),
      (∀ d ∈ docs, d.extractOk = true → unchangedB store d = true) →
      (docs.foldl (processDoc false) (s, store)).1.upserted = s.upserted ∧
      (docs.foldl (processDoc false) (s, store)).1.skipped
        = s.skipped ++ (docs.filter (fun d => d.extractOk)).map Doc.key := by
  induction docs with
  | nil => intro s store _; simp
  | cons d rest ih =>
    intro s store hall
    rw [List.foldl_cons]
    have htail : ∀ x ∈ rest, x.extractOk = true → unchangedB store x = true :=
      fun x hx => hall x (List.mem_cons_of_mem d hx)
    by_cases hd : d.extractOk
    · have hu : unchangedB store d := hall d (List.mem_cons_self d rest) hd
      have hstep : processDoc false (s, store) d
          = ({ s with skipped := s.skipped ++ [d.key] }, store) := by
        simp [processDoc, hd, hu]
      rw [hstep]
      obtain ⟨h1, h2⟩ := ih _ store htail
      refine ⟨by simpa using h1, ?_⟩
      rw [h2]
      simp [List.filter_cons, hd]
    · have hstep : processDoc false (s, store) d
          = ({ s with failed := s.failed ++ [d.key] }, store) := by
        simp [processDoc, hd]
      rw [hstep]
      obtain ⟨h1, h2⟩ := ih _ store htail
      refine ⟨by simpa using h1, ?_⟩
      rw [h2]
      simp [List.filter_cons, hd]

/-- C4: after a committed run, an immediately repeated committed run over the
same candidates (pairwise-distinct keys, all extractable) performs zero
upserts and finds zero fingerprint mismatches — every fetched candidate is
classified skipped-unchanged and none fails. -/

theorem C4_second_run_idempotent (docs : List Doc) (store : List Entry)
    (hnd : (docs.map Doc.key).Nodup)
    (hok : ∀ d ∈ docs, d.extractOk = true) :
    (sync_and_upsert false docs (sync_and_upsert false docs store).2).1.upserted = [] ∧
    (sync_and_upsert false docs (sync_and_upsert false docs store).2).1.skipped
      = docs.map Doc.key ∧
    (sync_and_upsert false docs (sync_and_upsert false docs store).2).1.failed = [] := by
  have hstore1 : (sync_and_upsert false docs store).2
      = (docs.foldl (processDoc false)
          ({ fetched := docs.length, upserted := [], skipped := [], failed := [],
             status := RunStatus.success }, store)).2 := by
    simp only [sync_and_upsert]
  have hall : ∀ d ∈ docs, d.extractOk = true →
      unchangedB (sync_and_upsert false docs store).2 d = true := by
    intro d hd hdok
    have := foldl_wet_exists docs
      ({ fetched := docs.length, upserted := [], skipped := [], failed := [],
         status := RunStatus.success }) store hnd d hd hdok
    rw [hstore1]
    unfold unchangedB
    rw [this]
    simp
  set store1 := (sync_and_upsert false docs store).2 with hs1
  obtain ⟨hup, hsk⟩ := foldl_stable_summary docs
    ({ fetched := docs.length, upserted := [], skipped := [], failed := [],
       status := RunStatus.success }) store1 hall
  have hfail := foldl_failed false docs
    ({ fetched := docs.length, upserted := [], skipped := [], failed := [],
       status := RunStatus.success }) store1
  have hfilter : docs.filter (fun d => d.extractOk) = docs :=
    List.filter_eq_self.mpr (fun d hd => by simpa using hok d hd)
  have hfilter2 : docs.filter (fun d => !d.extractOk) = [] :=
    List.filter_eq_nil_iff.mpr (fun d hd => by simpa using hok d hd)
  refine ⟨?_, ?_, ?_⟩
  · simp only [sync_and_upsert]
    simpa using hup
  · simp only [sync_and_upsert]
    rw [hsk, hfilter]
    simp
  · simp only [sync_and_upsert]
    rw [hfail, hfilter2]
    simp

/-- Witness for C4 at a concrete two-document run. -/

theorem C4_second_run_idempotent_witness :
    (sync_and_upsert false
      [⟨"k1", "hello", "p1", true⟩, ⟨"k2", "world", "p2", true⟩]
      (sync_and_upsert false
        [⟨"k1", "hello", "p1", true⟩, ⟨"k2", "world", "p2", true⟩] []).2).1.upserted = [] ∧
    (sync_and_upsert false
      [⟨"k1", "hello", "p1", true⟩, ⟨"k2", "world", "p2", true⟩]
      (sync_and_upsert false
        [⟨"k1", "hello", "p1", true⟩, ⟨"k2", "world", "p2", true⟩] []).2).1.skipped
      = ["k1", "k2"] ∧
    (sync_and_upsert false
      [⟨"k1", "hello", "p1", true⟩, ⟨"k2", "world", "p2", true⟩]
      (sync_and_upsert false
        [⟨"k1", "hello", "p1", true⟩, ⟨"k2", "world", "p2", true⟩] []).2).1.failed = [] :=
  C4_second_run_idempotent
    [⟨"k1", "hello", "p1", true⟩, ⟨"k2", "world", "p2", true⟩] []
    (by decide) (by decide)

/-- The failed filter is empty exactly when every document extracts. -/

theorem filter_failed_isEmpty (docs : List Doc) :
    ((docs.filter (fun d => !d.extractOk)).map Doc.key).isEmpty
      = docs.all (fun d => d.extractOk) := by
  induction docs with
  | nil => rfl
  | cons d rest ih =>
    by_cases hd : d.extractOk
    · simp [List.filter_cons, hd, ih]
    · simp [List.filter_cons, hd]

/-- C6: in a committed run over candidates with pairwise-distinct keys, the
summary fetches every candidate, records as failed exactly the documents whose
extraction fails, ends partial-failure iff at least one document failed
(success otherwise), and every successfully extracted document is present in
the index afterwards with its content fingerprint — the failure of one document
never blocks the others. -/

theorem C6_per_document_failure_isolation (docs : List Doc) (store : List Entry)
    (hnd : (docs.map Doc.key).Nodup) :
    (sync_and_upsert false docs store).1.fetched = docs.length ∧
    (sync_and_upsert false docs store).1.failed
      = (docs.filter (fun d => !d.extractOk)).map Doc.key ∧
    (sync_and_upsert false docs store).1.status
      = (if docs.all (fun d => d.extractOk) then RunStatus.success
         else RunStatus.partialFailure) ∧
    (∀ d ∈ docs, d.extractOk = true →
      existsFp (sync_and_upsert false docs store).2 d.key
        = some (fingerprint d.content)) := by
  have hfail := foldl_failed false docs
    ({ fetched := docs.length, upserted := [], skipped := [], failed := [],
       status := RunStatus.success }) store
  refine ⟨?_, ?_, ?_, ?_⟩
  · simp only [sync_and_upsert]
    simpa using foldl_fetched false docs _ store
  · simp only [sync_and_upsert]
    simpa using hfail
  · simp only [sync_and_upsert]
    rw [hfail]
    simp only [List.nil_append]
    rw [← filter_failed_isEmpty docs]
  · intro d hd hok
    simp only [sync_and_upsert]
    exact foldl_wet_exists docs _ store hnd d hd hok

/-- Witness for C6: three candidates of which exactly the middle one fails
extraction — fetched = 3, failed = [that one], status partial-failure, and a
surviving document is present in the index with its fingerprint. -/

theorem C6_per_document_failure_isolation_witness :
    (sync_and_upsert false
      [⟨"a", "tA", "pA", true⟩, ⟨"b", "tB", "pB", false⟩, ⟨"c", "tC", "pC", true⟩]
      []).1.fetched = 3 ∧
    (sync_and_upsert false
      [⟨"a", "tA", "pA", true⟩, ⟨"b", "tB", "pB", false⟩, ⟨"c", "tC", "pC", true⟩]
      []).1.failed = ["b"] ∧
    (sync_and_upsert false
      [⟨"a", "tA", "pA", true⟩, ⟨"b", "tB", "pB", false⟩, ⟨"c", "tC", "pC", true⟩]
      []).1.status = RunStatus.partialFailure ∧
    existsFp (sync_and_upsert false
      [⟨"a", "tA", "pA", true⟩, ⟨"b", "tB", "pB", false⟩, ⟨"c", "tC", "pC", true⟩]
      []).2 "a" = some (fingerprint "tA") := by
  have h := C6_per_document_failure_isolation
    [⟨"a", "tA", "pA", true⟩, ⟨"b", "tB", "pB", false⟩, ⟨"c", "tC", "pC", true⟩]
    [] (by decide)
  refine ⟨h.1, ?_, ?_, ?_⟩
  · rw [h.2.1]; rfl
  · rw [h.2.2.1]; rfl
  · exact h.2.2.2 ⟨"a", "tA", "pA", true⟩ (by simp) rfl

/-- Every transition preserves `running` having no duplicate class. -/

theorem stepState_nodup (st : SchedState) (e : Event)
    (h : st.running.Nodup) : (stepState st e).running.Nodup := by
  cases e with
  | trigger c =>
    by_cases hc : c ∈ st.running
    · simpa [stepState, step, hc] using h
    · simp only [stepState, step, if_neg hc]
      exact List.Nodup.cons hc h
  | finish c =>
    simpa [stepState, step] using h.erase c

/-- C5: a trigger for a class that is already `Running` immediately returns
`locked` and leaves the whole scheduler state unchanged — no remote call is
made and no deferred run is queued; a trigger for a class that is not running
starts it (its remote work begins); and in every reachable scheduler state no
class appears twice in `running` — two runs of one document class never
execute concurrently. -/

theorem C5_skip_if_running :
    (∀ (st : SchedState) (c : String), c ∈ st.running →
      step st (Event.trigger c) = (st, some RunOutcome.locked)) ∧
    (∀ (st : SchedState) (c2 : String), c2 ∉ st.running →
      (step st (Event.trigger c2)).2 = some RunOutcome.started ∧
      (step st (Event.trigger c2)).1.running = c2 :: st.running ∧
      (step st (Event.trigger c2)).1.remoteCalls = st.remoteCalls + 1) ∧
    (∀ events : List Event, (runSched events).running.Nodup) := by
  refine ⟨?_, ?_, ?_⟩
  · intro st c hc
    simp [step, hc]
  · intro st c2 hc2
    refine ⟨?_, ?_, ?_⟩ <;> simp [step, hc2]
  · intro events
    have hgen : ∀ (evs : List Event) (st : SchedState), st.running.Nodup →
        (evs.foldl stepState st).running.Nodup := by
      intro evs
      induction evs with
      | nil => intro st h; exact h
      | cons e rest ih =>
        intro st h
        rw [List.foldl_cons]
        exact ih _ (stepState_nodup st e h)
    exact hgen events initState (by simp [initState])

/-- Witness for C5: after triggering class "sop", a second trigger for "sop"
is locked and changes nothing, a trigger for "insw" starts, and a concrete
event interleaving keeps `running` duplicate-free. -/

theorem C5_skip_if_running_witness :
    step (runSched [Event.trigger "sop"]) (Event.trigger "sop")
      = (runSched [Event.trigger "sop"], some RunOutcome.locked) ∧
    (step (runSched [Event.trigger "sop"]) (Event.trigger "insw")).2
      = some RunOutcome.started ∧
    (runSched [Event.trigger "sop", Event.trigger "sop", Event.trigger "insw",
      Event.finish "sop"]).running.Nodup := by
  refine ⟨?_, ?_, ?_⟩
  · exact C5_skip_if_running.1 (runSched [Event.trigger "sop"]) "sop" (by decide)
  · exact (C5_skip_if_running.2.1 (runSched [Event.trigger "sop"]) "insw" (by decide)).1
  · exact C5_skip_if_running.2.2
      [Event.trigger "sop", Event.trigger "sop", Event.trigger "insw", Event.finish "sop"]

/-- C9: `fetchAPI` always hands back the original response; on a 401 response
it removes the stored `token` and `user` entries and navigates to `/login`
exactly when the current path does not already contain `/login` (leaving the
path itself alone); on any other status the browser state is untouched. -/

theorem C9_fetchAPI_unauthorized_handling (st : BrowserState) (status : Nat) :
    (fetchAPI st status).returnedStatus = status ∧
    (status = 401 →
      (fetchAPI st status).finalState.token = none ∧
      (fetchAPI st status).finalState.user = none ∧
      (jsIncludes st.pathname "/login" = false →
        (fetchAPI st status).finalState.href = "/login") ∧
      (jsIncludes st.pathname "/login" = true →
        (fetchAPI st status).finalState.href = st.href) ∧
      (fetchAPI st status).finalState.pathname = st.pathname) ∧
    (status ≠ 401 → (fetchAPI st status).finalState = st) := by
  by_cases h : status = 401
  · subst h
    refine ⟨?_, ?_, ?_⟩
    · by_cases hp : jsIncludes st.pathname "/login" <;> simp [fetchAPI, hp]
    · intro _
      by_cases hp : jsIncludes st.pathname "/login" <;>
        simp [fetchAPI, hp]
    · intro hne
      exact absurd rfl hne
  · refine ⟨?_, fun h401 => absurd h401 h, fun _ => ?_⟩ <;>
      simp [fetchAPI, h]

/-- Witness for C9: a 401 on the path `/sop` clears the credentials and lands
on `/login`; a 200 leaves the state untouched; both return their status. -/

theorem C9_fetchAPI_unauthorized_handling_witness :
    (fetchAPI ⟨some "tok", some "usr", "/sop", "/sop"⟩ 401).finalState.token = none ∧
    (fetchAPI ⟨some "tok", some "usr", "/sop", "/sop"⟩ 401).finalState.href = "/login" ∧
    (fetchAPI ⟨some "tok", some "usr", "/sop", "/sop"⟩ 401).returnedStatus = 401 ∧
    (fetchAPI ⟨some "tok", some "usr", "/sop", "/sop"⟩ 200).finalState
      = ⟨some "tok", some "usr", "/sop", "/sop"⟩ := by
  have h401 := C9_fetchAPI_unauthorized_handling ⟨some "tok", some "usr", "/sop", "/sop"⟩ 401
  have h200 := C9_fetchAPI_unauthorized_handling ⟨some "tok", some "usr", "/sop", "/sop"⟩ 200
  refine ⟨(h401.2.1 rfl).1, (h401.2.1 rfl).2.2.1 (by decide), h401.1, h200.2.2 (by decide)⟩

/-- C10 (counterexample): for the message `hi<CASE_DATA>[]<CASE_DATA>` the
text after the first marker is `[]<CASE_DATA>`, which does not parse as a
JSON array, yet the code renders the table: it parses only `parts[1]`, the
segment between the first and second markers, which is `[]`. -/

theorem C10_counterexample : ¬ C10claimProp := by
  intro h
  exact absurd (h "hi<CASE_DATA>[]<CASE_DATA>") (by decide)

/-- C10 (amended): the text before the first marker is always the markdown
part, and the Related Cases table is rendered iff the segment between the
first and the second `<CASE_DATA>` markers (to the end when the marker occurs
once) parses as a JSON array — a parse failure on a malformed segment is caught
and the message renders without the table. -/

theorem C10_renderContent_caseTable (content : String) :
    (renderContentS content).textPart
      = (splitOnL caseMarker content.data).headD [] ∧
    (renderContentS content).caseTable
      = (match (splitOnL caseMarker content.data)[1]? with
         | some s =>
           (match parseJsonL s with
            | some (Json.jarr xs) => some xs
            | _ => none)
         | none => none) := by
  refine ⟨rfl, ?_⟩
  simp only [renderContentS, renderContent]
  cases hp : (splitOnL caseMarker content.data)[1]? with
  | none => rfl
  | some s =>
    by_cases he : s.isEmpty
    · have hs : s = [] := List.isEmpty_iff.mp he
      subst hs
      simp [he]
      rfl
    · simp only [he, if_neg (by simp [he] : ¬ (s.isEmpty = true))]
      cases hj : parseJsonL s with
      | none => rfl
      | some v => cases v <;> simp [jsTruthy, isArr, getArr]

end EximChat
